import Mathlib

/-!
# Plantify cart state manager

A shallow embedding of the cart logic of `src/main.js` (the `CartProvider`
component of `CartContext.jsx`, and the totals computed in `Header.jsx` and
`CartPage.jsx`), followed by the properties of the cart that the
specification states.

Modelling conventions:

* a JavaScript number is an IEEE 754 double and every `+` and `*` of the
  source rounds its exact result to the nearest double, ties to even:
  `roundDouble` is that rounding on the rationals, with the 53-bit
  significand and the subnormal spacing `2 ^ (-1074)`;
* `id`, `quantity` and `delta`, which the specification types as integers,
  are `Int`, and their sums go through `roundInt`, the same rounding on
  integers (`roundInt_eq_floor`); a `price` is a rational, since the
  specification types it as a number only;
* the infinities and NaN are not values of the model: a sum or product
  whose magnitude reaches `2 ^ 1024` is an infinity in the source and a
  finite number here, and `-0` is not told apart from `0`;
* the React state `cart` is a `List CartItem`; `setCart` is handed a value by
  `addToCart`, computed from the `cart` of the render the call is made from,
  and an updater function by `updateQuantity` and `removeItem`, applied to
  the pending state: `event` runs the calls made from one render, `session`
  a sequence of renders, and `run` is the case of one call per render;
* the array methods `find`, `map`, `filter` and `reduce` are `List.find?`,
  `List.map`, `List.filter` and `List.foldl`;
* an object spread `{ ...item, quantity: q }` is a structure update.
-/

namespace Plantify

/-! ## Numbers -/

/-- The integer nearest to a rational, a tie going to the even one. -/
def roundHalfEven (y : ℚ) : Int :=
  if y - ⌊y⌋ < 1 / 2 then ⌊y⌋
  else if 1 / 2 < y - ⌊y⌋ then ⌊y⌋ + 1
  else if ⌊y⌋ % 2 = 0 then ⌊y⌋ else ⌊y⌋ + 1

/-- The spacing of the doubles around a positive number: `2 ^ (e - 52)` for
`2 ^ e ≤ x < 2 ^ (e + 1)`, and the subnormal spacing `2 ^ (-1074)` below
`2 ^ (-1022)`. -/
def ulp (x : ℚ) : ℚ :=
  (2 : ℚ) ^ (max (Int.log 2 x) (-1022) - 52)

/-- The double nearest to a non-negative number, ties to even. -/
def roundPos (x : ℚ) : ℚ :=
  roundHalfEven (x / ulp x) * ulp x

/-- The double nearest to a number, ties to even: the result of an
arithmetic operation of the source whose exact result is the number. -/
def roundDouble (x : ℚ) : ℚ :=
  if x < 0 then -roundPos (-x) else roundPos x

/-- The rounding of an integer: up to `2 ^ 53` in magnitude every integer is a
double, beyond that it is rounded as any number is (to an integer again). -/
def roundInt (x : Int) : Int :=
  if x.natAbs ≤ 2 ^ 53 then x else ⌊roundDouble x⌋

/-- The sum `a + b` of the source, on integers. -/
def addInt (a b : Int) : Int :=
  roundInt (a + b)

/-- The sum `a + b` of the source. -/
def addNum (a b : ℚ) : ℚ :=
  roundDouble (a + b)

/-- The product `a * b` of the source. -/
def mulNum (a b : ℚ) : ℚ :=
  roundDouble (a * b)

/-- The finite doubles: a significand below `2 ^ 53` in magnitude times a
power of two with an exponent from -1074 to 971. -/
def IsDouble (x : ℚ) : Prop :=
  ∃ a k : Int, a.natAbs < 2 ^ 53 ∧ -1074 ≤ k ∧ k ≤ 971 ∧ x = a * (2 : ℚ) ^ k

/-! ## The cart -/

/-- An entry of the catalogue `plants` (ProductList.jsx). -/
structure Product where
  id : Int
  name : String
  price : ℚ
  category : String
  img : String
deriving DecidableEq

/-- A cart line: the fields of the product it was spread from, plus
`quantity`. -/
structure CartItem where
  id : Int
  name : String
  price : ℚ
  category : String
  img : String
  quantity : Int
deriving DecidableEq

/-- The object `{ ...plant, quantity: q }`. -/
def spreadPlant (plant : Product) (q : Int) : CartItem :=
  { id := plant.id, name := plant.name, price := plant.price,
    category := plant.category, img := plant.img, quantity := q }

/-- The catalogue of ProductList.jsx. -/
def plants : List Product :=
  [ { id := 1, name := "Snake Plant", price := 15, category := "Low Light",
      img := "https://via.placeholder.com/100" },
    { id := 2, name := "Fiddle Leaf Fig", price := 35, category := "Large Plants",
      img := "https://via.placeholder.com/100" },
    { id := 3, name := "Peace Lily", price := 20, category := "Flowering",
      img := "https://via.placeholder.com/100" },
    { id := 4, name := "ZZ Plant", price := 18, category := "Low Light",
      img := "https://via.placeholder.com/100" },
    { id := 5, name := "Aloe Vera", price := 12, category := "Succulents",
      img := "https://via.placeholder.com/100" },
    { id := 6, name := "Rubber Plant", price := 25, category := "Large Plants",
      img := "https://via.placeholder.com/100" } ]

/-- The value `addToCart` of CartContext.jsx hands to `setCart`, from the
`cart` of its render: `cart.find` looks for a line with the plant's id; when
there is one (an object is truthy) every line with that id is mapped to a
copy with `item.quantity + 1`, otherwise the spread plant with `quantity: 1`
is appended. -/
def addToCart (cart : List CartItem) (plant : Product) : List CartItem :=
  match cart.find? (fun item => decide (item.id = plant.id)) with
  | some _ =>
      cart.map (fun item =>
        if item.id = plant.id then { item with quantity := addInt item.quantity 1 } else item)
  | none => cart ++ [spreadPlant plant 1]

/-- The updater `updateQuantity` of CartContext.jsx hands to `setCart`: map
to `item.quantity + delta` on the matching id, then filter on
`item.quantity > 0`. -/
def updateQuantity (prev : List CartItem) (id delta : Int) : List CartItem :=
  (prev.map (fun item =>
      if item.id = id then { item with quantity := addInt item.quantity delta } else item)).filter
    (fun item => decide (item.quantity > 0))

/-- The updater `removeItem` of CartContext.jsx hands to `setCart`. -/
def removeItem (prev : List CartItem) (id : Int) : List CartItem :=
  prev.filter (fun item => decide (item.id ≠ id))

/-- The constant `totalItems` of Header.jsx and CartPage.jsx:
`cart.reduce((sum, item) => sum + item.quantity, 0)`. -/
def totalItems (cart : List CartItem) : Int :=
  cart.foldl (fun sum item => addInt sum item.quantity) 0

/-- The constant `totalCost` of CartPage.jsx:
`cart.reduce((sum, item) => sum + item.quantity * item.price, 0)`. -/
def totalCost (cart : List CartItem) : ℚ :=
  cart.foldl (fun sum item => addNum sum (mulNum item.quantity item.price)) 0

/-- A call of one of the three functions the provider hands out. -/
inductive CartOp where
  | add (plant : Product)
  | update (id delta : Int)
  | remove (id : Int)
deriving DecidableEq

/-- The cart after one call made from the render of the cart. -/
def step (cart : List CartItem) : CartOp → List CartItem
  | .add plant => addToCart cart plant
  | .update id delta => updateQuantity cart id delta
  | .remove id => removeItem cart id

/-- The cart after a sequence of calls, starting from `useState([])`, each
call made from the render of the state the call before it left. -/
def run (ops : List CartOp) : List CartItem :=
  ops.foldl step []

/-- The pending state after one more call made from the render whose cart is
`rendered`: `addToCart` replaces the pending state by the value it computes
from the rendered cart, the other two apply their updater to the pending
state. -/
def applyCall (rendered pending : List CartItem) : CartOp → List CartItem
  | .add plant => addToCart rendered plant
  | .update id delta => updateQuantity pending id delta
  | .remove id => removeItem pending id

/-- The state after the calls made from one render of the cart. -/
def event (rendered : List CartItem) (calls : List CartOp) : List CartItem :=
  calls.foldl (applyCall rendered) rendered

/-- The state after a sequence of renders, each with the calls made from it,
starting from `useState([])`. -/
def session (events : List (List CartOp)) : List CartItem :=
  events.foldl event []

/-- The ids of the lines, in order. -/
def ids (cart : List CartItem) : List Int :=
  cart.map (fun item => item.id)

/-- No two lines carry the same id. -/
def NoDupIds (cart : List CartItem) : Prop :=
  (ids cart).Nodup

/-- Every line has a quantity of at least one. -/
def AllPositive (cart : List CartItem) : Prop :=
  ∀ item ∈ cart, 1 ≤ item.quantity

/-- Some line carries the id. -/
def HasId (cart : List CartItem) (id : Int) : Prop :=
  ∃ item ∈ cart, item.id = id

instance (cart : List CartItem) : Decidable (NoDupIds cart) := by
  unfold NoDupIds; infer_instance

instance (cart : List CartItem) : Decidable (AllPositive cart) := by
  unfold AllPositive; infer_instance

instance (cart : List CartItem) (id : Int) : Decidable (HasId cart id) := by
  unfold HasId; infer_instance

/-- The lines whose id differs from the given one, in their original order:
the result the specification gives for a removal, by recursion on the
sequence. -/
def linesOtherThan : List CartItem → Int → List CartItem
  | [], _ => []
  | item :: rest, id =>
      if item.id = id then linesOtherThan rest id else item :: linesOtherThan rest id

/-- The sum of the quantities of the lines: the specification's
totalItemCount. -/
def sumQuantity : List CartItem → Int
  | [] => 0
  | item :: rest => item.quantity + sumQuantity rest

/-- The sum of quantity times price over the lines: the specification's
totalCost. -/
def sumQuantityPrice : List CartItem → ℚ
  | [] => 0
  | item :: rest => item.quantity * item.price + sumQuantityPrice rest

/-! ## Lemmas on the rounding -/

theorem ulp_pos (x : ℚ) : 0 < ulp x := by
  unfold ulp
  positivity

theorem roundHalfEven_intCast (z : Int) : roundHalfEven (z : ℚ) = z := by
  unfold roundHalfEven
  simp

theorem floor_le_roundHalfEven (y : ℚ) : ⌊y⌋ ≤ roundHalfEven y := by
  unfold roundHalfEven
  split_ifs <;> omega

theorem roundPos_of_intMul (x : ℚ) (z : Int) (h : x = z * ulp x) : roundPos x = x := by
  unfold roundPos
  have hu := ulp_pos x
  have : x / ulp x = (z : ℚ) := by
    rw [div_eq_iff (ne_of_gt hu)]
    exact h
  rw [this, roundHalfEven_intCast]
  exact h.symm

theorem roundPos_zero : roundPos 0 = 0 := by
  apply roundPos_of_intMul 0 0
  simp

/-- A positive number with a significand below 2^53 and an exponent of at least -1074 is left
unchanged by the rounding. -/
theorem roundPos_dyadic (a : Nat) (k : Int) (ha : a < 2 ^ 53) (hk : -1074 ≤ k) :
    roundPos (a * (2 : ℚ) ^ k) = a * (2 : ℚ) ^ k := by
  rcases Nat.eq_zero_or_pos a with h0 | hpos
  · subst h0
    simpa using roundPos_zero
  set x : ℚ := a * (2 : ℚ) ^ k with hx
  have h2k : (0 : ℚ) < (2 : ℚ) ^ k := by positivity
  have hxpos : 0 < x := by
    have : (0 : ℚ) < a := by exact_mod_cast hpos
    positivity
  have hlt : x < ((2 : ℕ) : ℚ) ^ (53 + k) := by
    have h1 : (a : ℚ) < 2 ^ 53 := by exact_mod_cast ha
    have h3 : ((2 : ℕ) : ℚ) ^ (53 + k) = 2 ^ 53 * (2 : ℚ) ^ k := by
      rw [zpow_add₀ (by norm_num)]
      norm_num
    rw [h3, hx]
    exact mul_lt_mul_of_pos_right h1 h2k
  have hlog : Int.log 2 x < 53 + k := (Int.lt_zpow_iff_log_lt (by norm_num) hxpos).1 hlt
  have he : max (Int.log 2 x) (-1022) - 52 ≤ k := by
    rcases max_cases (Int.log 2 x) (-1022) with ⟨h, _⟩ | ⟨h, _⟩ <;> rw [h] <;> omega
  obtain ⟨d, hd⟩ : ∃ d : Nat, k = (max (Int.log 2 x) (-1022) - 52) + d :=
    ⟨(k - (max (Int.log 2 x) (-1022) - 52)).toNat, by omega⟩
  apply roundPos_of_intMul x ((a : Int) * 2 ^ d)
  unfold ulp
  rw [hx]
  conv_lhs => rw [hd]
  rw [zpow_add₀ (by norm_num : (2 : ℚ) ≠ 0)]
  push_cast
  rw [zpow_natCast]
  ring

theorem roundDouble_of_isDouble (x : ℚ) (h : IsDouble x) : roundDouble x = x := by
  obtain ⟨a, k, ha, hk, _, rfl⟩ := h
  have h2k : (0 : ℚ) < (2 : ℚ) ^ k := by positivity
  unfold roundDouble
  by_cases hneg : (a : ℚ) * 2 ^ k < 0
  · rw [if_pos hneg]
    have ha0 : a < 0 := by
      by_contra hcon
      have : (0 : ℚ) ≤ a := by exact_mod_cast (not_lt.1 hcon)
      have : (0 : ℚ) ≤ (a : ℚ) * 2 ^ k := by positivity
      linarith
    have hcast : -((a : ℚ) * 2 ^ k) = ((a.natAbs : ℕ) : ℚ) * 2 ^ k := by
      have h2 : ((a.natAbs : ℕ) : ℚ) = -(a : ℚ) := by
        rw [Nat.cast_natAbs, abs_of_neg ha0]
        push_cast
        rfl
      rw [h2]
      ring
    rw [hcast, roundPos_dyadic a.natAbs k ha hk, ← hcast]
    ring
  · rw [if_neg hneg]
    have ha0 : 0 ≤ a := by
      by_contra hcon
      have : (a : ℚ) < 0 := by exact_mod_cast (not_le.1 hcon)
      have : (a : ℚ) * 2 ^ k < 0 := mul_neg_of_neg_of_pos this h2k
      exact hneg this
    have hcast : (a : ℚ) * 2 ^ k = ((a.natAbs : ℕ) : ℚ) * 2 ^ k := by
      have h2 : ((a.natAbs : ℕ) : ℚ) = (a : ℚ) := by
        rw [Nat.cast_natAbs, abs_of_nonneg ha0]
      rw [h2]
    rw [hcast, roundPos_dyadic a.natAbs k ha hk]

theorem isDouble_intCast (n : Int) (h : n.natAbs ≤ 2 ^ 53) : IsDouble (n : ℚ) := by
  rcases Nat.lt_or_ge n.natAbs (2 ^ 53) with hlt | hge
  · exact ⟨n, 0, hlt, by norm_num, by norm_num, by simp⟩
  · have habs : n.natAbs = 2 ^ 53 := le_antisymm h hge
    rcases Int.natAbs_eq n with hn | hn
    · refine ⟨1, 53, by norm_num, by norm_num, by norm_num, ?_⟩
      rw [hn, habs]
      norm_num
    · refine ⟨-1, 53, by norm_num, by norm_num, by norm_num, ?_⟩
      rw [hn, habs]
      norm_num

theorem roundDouble_intCast (n : Int) (h : n.natAbs ≤ 2 ^ 53) : roundDouble (n : ℚ) = n :=
  roundDouble_of_isDouble _ (isDouble_intCast n h)

/-- roundInt is the rounding of the integer as a double. -/
theorem roundInt_eq_floor (x : Int) : roundInt x = ⌊roundDouble x⌋ := by
  unfold roundInt
  split_ifs with h
  · rw [roundDouble_intCast x h]
    simp
  · rfl

theorem one_le_roundPos (x : ℚ) (hx : 1 ≤ x) : 1 ≤ roundPos x := by
  have hxpos : 0 < x := by linarith
  have hL0 : 0 ≤ Int.log 2 x := by
    apply (Int.zpow_le_iff_le_log (by norm_num : 1 < 2) hxpos).1
    simpa using hx
  have hlow : ((2 : ℕ) : ℚ) ^ Int.log 2 x ≤ x := Int.zpow_log_le_self (by norm_num) hxpos
  have hmax : max (Int.log 2 x) (-1022) = Int.log 2 x := max_eq_left (by omega)
  have hu : ulp x = (2 : ℚ) ^ (Int.log 2 x - 52) := by
    unfold ulp
    rw [hmax]
  have hupos := ulp_pos x
  have hy : ((2 ^ 52 : ℤ) : ℚ) ≤ x / ulp x := by
    rw [le_div_iff₀ hupos, hu]
    have : ((2 ^ 52 : ℤ) : ℚ) * 2 ^ (Int.log 2 x - 52) = (2 : ℚ) ^ Int.log 2 x := by
      rw [zpow_sub₀ (by norm_num : (2 : ℚ) ≠ 0)]
      push_cast
      field_simp
      ring
    rw [this]
    exact_mod_cast hlow
  have hfl : (2 ^ 52 : ℤ) ≤ ⌊x / ulp x⌋ := Int.le_floor.2 hy
  have hr : (2 ^ 52 : ℤ) ≤ roundHalfEven (x / ulp x) :=
    le_trans hfl (floor_le_roundHalfEven _)
  have hrq : ((2 ^ 52 : ℤ) : ℚ) ≤ (roundHalfEven (x / ulp x) : ℚ) := by exact_mod_cast hr
  unfold roundPos
  have h1 : (1 : ℚ) ≤ ((2 ^ 52 : ℤ) : ℚ) * ulp x := by
    rw [hu, zpow_sub₀ (by norm_num : (2 : ℚ) ≠ 0)]
    push_cast
    have : (1 : ℚ) ≤ (2 : ℚ) ^ Int.log 2 x := one_le_zpow₀ (by norm_num) hL0
    field_simp
    linarith
  calc (1 : ℚ) ≤ ((2 ^ 52 : ℤ) : ℚ) * ulp x := h1
    _ ≤ roundHalfEven (x / ulp x) * ulp x := mul_le_mul_of_nonneg_right hrq (le_of_lt hupos)

theorem roundInt_pos_iff (x : Int) : 0 < roundInt x ↔ 0 < x := by
  unfold roundInt
  split_ifs with h
  · rfl
  · have hbig : 2 ^ 53 < x.natAbs := by omega
    unfold roundDouble
    by_cases hneg : x < 0
    · have hq : (x : ℚ) < 0 := by exact_mod_cast hneg
      rw [if_pos hq]
      have h1 : (1 : ℚ) ≤ -(x : ℚ) := by
        have : (1 : ℤ) ≤ -x := by omega
        exact_mod_cast this
      have h2 := one_le_roundPos _ h1
      constructor
      · intro hfl
        have : (0 : ℚ) < -roundPos (-(x : ℚ)) := by
          have := Int.floor_pos.1 hfl
          linarith
        linarith
      · intro hx
        omega
    · have hq : ¬ (x : ℚ) < 0 := by
        intro hc
        exact hneg (by exact_mod_cast hc)
      rw [if_neg hq]
      have hx1 : 1 ≤ x := by omega
      have h1 : (1 : ℚ) ≤ (x : ℚ) := by exact_mod_cast hx1
      have h2 := one_le_roundPos _ h1
      constructor
      · intro _
        omega
      · intro _
        exact Int.floor_pos.2 h2

theorem log_eq_of_bounds (x : ℚ) (L : Int) (hx : 0 < x) (hlo : (2 : ℚ) ^ L ≤ x)
    (hhi : x < (2 : ℚ) ^ (L + 1)) : Int.log 2 x = L := by
  have h1 : L ≤ Int.log 2 x :=
    (Int.zpow_le_iff_le_log (by norm_num : 1 < 2) hx).1 (by exact_mod_cast hlo)
  have h2 : Int.log 2 x < L + 1 :=
    (Int.lt_zpow_iff_log_lt (by norm_num : 1 < 2) hx).1 (by exact_mod_cast hhi)
  omega

/-- The rounding of a positive number whose binary exponent and scaled floor are known. -/
theorem roundPos_eval (x : ℚ) (L f : Int) (hx : 0 < x) (hlo : (2 : ℚ) ^ L ≤ x)
    (hhi : x < (2 : ℚ) ^ (L + 1)) (hL : -1022 ≤ L)
    (hf1 : (f : ℚ) ≤ x / (2 : ℚ) ^ (L - 52)) (hf2 : x / (2 : ℚ) ^ (L - 52) < f + 1) :
    roundPos x =
      ((if x / (2 : ℚ) ^ (L - 52) - f < 1 / 2 then f
        else if 1 / 2 < x / (2 : ℚ) ^ (L - 52) - f then f + 1
        else if f % 2 = 0 then f else f + 1 : Int) : ℚ) * (2 : ℚ) ^ (L - 52) := by
  have hlog := log_eq_of_bounds x L hx hlo hhi
  have hu : ulp x = (2 : ℚ) ^ (L - 52) := by
    unfold ulp
    rw [hlog, max_eq_left hL]
  have hfl : ⌊x / (2 : ℚ) ^ (L - 52)⌋ = f := Int.floor_eq_iff.2 ⟨hf1, hf2⟩
  unfold roundPos roundHalfEven
  rw [hu, hfl]

theorem roundInt_two_pow_53_add_one : roundInt (2 ^ 53 + 1) = 2 ^ 53 := by
  have h := roundPos_eval (2 ^ 53 + 1) 53 (2 ^ 52) (by norm_num) (by norm_num) (by norm_num)
    (by norm_num) (by norm_num) (by norm_num)
  have hr : roundPos (2 ^ 53 + 1) = 2 ^ 53 := by
    rw [h]
    norm_num
  have hd : roundDouble (((2 ^ 53 + 1 : Int)) : ℚ) = 2 ^ 53 := by
    rw [show (((2 ^ 53 + 1 : Int)) : ℚ) = 2 ^ 53 + 1 by norm_num]
    unfold roundDouble
    rw [if_neg (by norm_num)]
    exact hr
  unfold roundInt
  rw [if_neg (by decide), hd]
  have : ((2 : ℚ) ^ 53) = (((2 ^ 53 : Int)) : ℚ) := by norm_num
  rw [this, Int.floor_intCast]

theorem roundDouble_three_tenths :
    roundDouble (3 * (3602879701896397 / 2 ^ 55)) = 5404319552844596 / 2 ^ 54 := by
  have h := roundPos_eval (3 * (3602879701896397 / 2 ^ 55)) (-2) 5404319552844595
    (by norm_num) (by norm_num) (by norm_num) (by norm_num) (by norm_num) (by norm_num)
  unfold roundDouble
  rw [if_neg (by norm_num), h]
  norm_num

theorem addInt_pos_iff (a b : Int) : 0 < addInt a b ↔ 0 < a + b :=
  roundInt_pos_iff (a + b)

theorem addInt_exact (a b : Int) (h : (a + b).natAbs ≤ 2 ^ 53) : addInt a b = a + b := by
  unfold addInt roundInt
  rw [if_pos h]

theorem roundInt_of_isDouble (n : Int) (h : IsDouble (n : ℚ)) : roundInt n = n := by
  rw [roundInt_eq_floor, roundDouble_of_isDouble _ h, Int.floor_intCast]

theorem addInt_of_isDouble (a b : Int) (h : IsDouble ((a + b : Int) : ℚ)) :
    addInt a b = a + b :=
  roundInt_of_isDouble (a + b) h

theorem addNum_exact (a b : ℚ) (h : IsDouble (a + b)) : addNum a b = a + b :=
  roundDouble_of_isDouble _ h

theorem mulNum_exact (a b : ℚ) (h : IsDouble (a * b)) : mulNum a b = a * b :=
  roundDouble_of_isDouble _ h

/-! ## Lemmas on the operations -/

theorem find_none_of_absent (cart : List CartItem) (id : Int) (h : ¬ HasId cart id) :
    cart.find? (fun item => decide (item.id = id)) = none := by
  rw [List.find?_eq_none]
  intro item hmem hid
  exact h ⟨item, hmem, by simpa using hid⟩

theorem find_some_of_present (cart : List CartItem) (id : Int) (h : HasId cart id) :
    ∃ item, cart.find? (fun item => decide (item.id = id)) = some item := by
  cases hf : cart.find? (fun item => decide (item.id = id)) with
  | some item => exact ⟨item, rfl⟩
  | none =>
    rw [List.find?_eq_none] at hf
    obtain ⟨item, hmem, hid⟩ := h
    exact absurd (by simpa using hid) (hf item hmem)

theorem addToCart_absent (cart : List CartItem) (plant : Product)
    (h : ¬ HasId cart plant.id) : addToCart cart plant = cart ++ [spreadPlant plant 1] := by
  unfold addToCart
  rw [find_none_of_absent cart plant.id h]

theorem addToCart_present (cart : List CartItem) (plant : Product)
    (h : HasId cart plant.id) :
    addToCart cart plant = cart.map (fun item =>
      if item.id = plant.id then { item with quantity := addInt item.quantity 1 } else item) := by
  obtain ⟨item, hf⟩ := find_some_of_present cart plant.id h
  unfold addToCart
  rw [hf]

theorem ids_map_bump (cart : List CartItem) (id d : Int) :
    ids (cart.map (fun item =>
      if item.id = id then { item with quantity := addInt item.quantity d } else item)) = ids cart := by
  unfold ids
  rw [List.map_map]
  apply List.map_congr_left
  intro item _
  by_cases h : item.id = id <;> simp [h]

theorem ids_updateQuantity_sublist (cart : List CartItem) (id delta : Int) :
    (ids (updateQuantity cart id delta)).Sublist (ids cart) := by
  have h := ids_map_bump cart id delta
  unfold updateQuantity
  rw [← h]
  unfold ids
  exact List.Sublist.map _ (List.filter_sublist _)

theorem ids_removeItem_sublist (cart : List CartItem) (id : Int) :
    (ids (removeItem cart id)).Sublist (ids cart) := by
  unfold removeItem ids
  exact List.Sublist.map _ (List.filter_sublist _)

theorem noDupIds_addToCart (cart : List CartItem) (plant : Product) (h : NoDupIds cart) :
    NoDupIds (addToCart cart plant) := by
  by_cases hp : HasId cart plant.id
  · rw [addToCart_present cart plant hp]
    unfold NoDupIds
    rw [ids_map_bump]
    exact h
  · rw [addToCart_absent cart plant hp]
    unfold NoDupIds ids at *
    rw [List.map_append, List.nodup_append]
    refine ⟨h, by simp, ?_⟩
    intro a ha hb
    simp only [List.map_cons, List.map_nil, List.mem_singleton] at hb
    rw [List.mem_map] at ha
    obtain ⟨item, hmem, hid⟩ := ha
    exact hp ⟨item, hmem, by rw [hid, hb]; rfl⟩

theorem noDupIds_step (cart : List CartItem) (op : CartOp) (h : NoDupIds cart) :
    NoDupIds (step cart op) := by
  cases op with
  | add plant => exact noDupIds_addToCart cart plant h
  | update id delta => exact List.Nodup.sublist (ids_updateQuantity_sublist cart id delta) h
  | remove id => exact List.Nodup.sublist (ids_removeItem_sublist cart id) h

theorem allPositive_addToCart (cart : List CartItem) (plant : Product) (h : AllPositive cart) :
    AllPositive (addToCart cart plant) := by
  by_cases hp : HasId cart plant.id
  · rw [addToCart_present cart plant hp]
    intro item hmem
    rw [List.mem_map] at hmem
    obtain ⟨old, hold, rfl⟩ := hmem
    have hone := h old hold
    by_cases hid : old.id = plant.id
    · rw [if_pos hid]
      have hp := (addInt_pos_iff old.quantity 1).2 (by omega)
      show 1 ≤ addInt old.quantity 1
      omega
    · rw [if_neg hid]
      exact hone
  · rw [addToCart_absent cart plant hp]
    intro item hmem
    rw [List.mem_append] at hmem
    rcases hmem with hmem | hmem
    · exact h item hmem
    · simp only [List.mem_singleton] at hmem
      rw [hmem]
      simp [spreadPlant]

theorem updateQuantity_positive (cart : List CartItem) (id delta : Int) :
    ∀ item ∈ updateQuantity cart id delta, 0 < item.quantity := by
  intro item hmem
  unfold updateQuantity at hmem
  rw [List.mem_filter] at hmem
  simpa using hmem.2

theorem allPositive_step (cart : List CartItem) (op : CartOp) (h : AllPositive cart) :
    AllPositive (step cart op) := by
  cases op with
  | add plant => exact allPositive_addToCart cart plant h
  | update id delta =>
    intro item hmem
    have := updateQuantity_positive cart id delta item hmem
    omega
  | remove id =>
    intro item hmem
    exact h item (List.mem_of_mem_filter hmem)

theorem foldl_step_invariant (P : List CartItem → Prop)
    (hstep : ∀ cart op, P cart → P (step cart op)) :
    ∀ (ops : List CartOp) (cart : List CartItem), P cart → P (ops.foldl step cart) := by
  intro ops
  induction ops with
  | nil => intro cart h; exact h
  | cons op rest ih => intro cart h; exact ih (step cart op) (hstep cart op h)

theorem map_bump_absent (cart : List CartItem) (id d : Int)
    (h : ∀ item ∈ cart, item.id ≠ id) :
    cart.map (fun item =>
      if item.id = id then { item with quantity := addInt item.quantity d } else item) = cart := by
  induction cart with
  | nil => rfl
  | cons a rest ih =>
    have ha : a.id ≠ id := h a (List.mem_cons_self a rest)
    have hrest : ∀ item ∈ rest, item.id ≠ id := fun item hm => h item (List.mem_cons_of_mem a hm)
    rw [List.map_cons, ih hrest, if_neg ha]

theorem filter_id_absent (cart : List CartItem) (id : Int)
    (h : ∀ item ∈ cart, item.id ≠ id) :
    cart.filter (fun item => decide (item.id = id)) = [] := by
  rw [List.filter_eq_nil_iff]
  intro item hmem
  simpa using h item hmem

theorem not_hasId_of_forall (cart : List CartItem) (id : Int)
    (h : ∀ item ∈ cart, item.id ≠ id) : ¬ HasId cart id := by
  rintro ⟨item, hmem, hid⟩
  exact h item hmem hid

theorem eq_of_id_eq (cart : List CartItem) (h : NoDupIds cart) (a b : CartItem)
    (ha : a ∈ cart) (hb : b ∈ cart) (hid : a.id = b.id) : a = b :=
  List.inj_on_of_nodup_map h ha hb hid

theorem getElem_id_ne (cart : List CartItem) (h : NoDupIds cart) (i j : Nat)
    (hi : i < cart.length) (hj : j < cart.length) (hij : j ≠ i) :
    (cart.get ⟨j, hj⟩).id ≠ (cart.get ⟨i, hi⟩).id := by
  intro hid
  have hi2 : i < (ids cart).length := by unfold ids; simpa using hi
  have hj2 : j < (ids cart).length := by unfold ids; simpa using hj
  have heq : (ids cart).get ⟨j, hj2⟩ = (ids cart).get ⟨i, hi2⟩ := by
    unfold ids
    simpa using hid
  have := (List.Nodup.get_inj_iff h).1 heq
  exact hij (by simpa using congrArg Fin.val this)

theorem getElem?_map_bump (cart : List CartItem) (id d : Int) (j : Nat) :
    (cart.map (fun item =>
      if item.id = id then { item with quantity := addInt item.quantity d } else item))[j]? =
    (cart[j]?).map (fun item =>
      if item.id = id then { item with quantity := addInt item.quantity d } else item) := by
  simp

theorem updateQuantity_eq_filter (cart : List CartItem) (id delta : Int)
    (hdrop : ∀ item ∈ cart, item.id = id → item.quantity + delta ≤ 0)
    (hkeep : ∀ item ∈ cart, item.id ≠ id → 0 < item.quantity) :
    updateQuantity cart id delta = cart.filter (fun item => decide (item.id ≠ id)) := by
  induction cart with
  | nil => rfl
  | cons a rest ih =>
    have hd : ∀ item ∈ rest, item.id = id → item.quantity + delta ≤ 0 :=
      fun item hm => hdrop item (List.mem_cons_of_mem a hm)
    have hk : ∀ item ∈ rest, item.id ≠ id → 0 < item.quantity :=
      fun item hm => hkeep item (List.mem_cons_of_mem a hm)
    have ih2 := ih hd hk
    unfold updateQuantity at ih2 ⊢
    rw [List.map_cons]
    by_cases ha : a.id = id
    · have hq : ¬ 0 < addInt a.quantity delta := by
        rw [addInt_pos_iff]
        have := hdrop a (List.mem_cons_self a rest) ha
        omega
      rw [if_pos ha, List.filter_cons_of_neg (by simpa using hq), ih2,
        List.filter_cons_of_neg (by simpa using ha)]
    · have hq := hkeep a (List.mem_cons_self a rest) ha
      rw [if_neg ha, List.filter_cons_of_pos (by simpa using hq), ih2,
        List.filter_cons_of_pos (by simpa using ha)]

theorem updateQuantity_eq_map (cart : List CartItem) (id delta : Int)
    (hhit : ∀ item ∈ cart, item.id = id → 0 < item.quantity + delta)
    (hkeep : ∀ item ∈ cart, item.id ≠ id → 0 < item.quantity) :
    updateQuantity cart id delta = cart.map (fun item =>
      if item.id = id then { item with quantity := addInt item.quantity delta } else item) := by
  unfold updateQuantity
  rw [List.filter_eq_self]
  intro item hmem
  rw [List.mem_map] at hmem
  obtain ⟨old, hold, rfl⟩ := hmem
  by_cases ha : old.id = id
  · simpa [ha] using (addInt_pos_iff old.quantity delta).2 (hhit old hold ha)
  · simpa [ha] using hkeep old hold ha

theorem removeItem_absent (cart : List CartItem) (id : Int)
    (h : ∀ item ∈ cart, item.id ≠ id) : removeItem cart id = cart := by
  unfold removeItem
  rw [List.filter_eq_self]
  intro item hmem
  simpa using h item hmem

theorem removeItem_eq_linesOtherThan (cart : List CartItem) (id : Int) :
    removeItem cart id = linesOtherThan cart id := by
  induction cart with
  | nil => rfl
  | cons a rest ih =>
    unfold removeItem at ih ⊢
    by_cases ha : a.id = id
    · rw [List.filter_cons_of_neg (by simpa using ha), ih]
      simp [linesOtherThan, ha]
    · rw [List.filter_cons_of_pos (by simpa using ha), ih]
      simp [linesOtherThan, ha]

theorem sumQuantity_append (l : List CartItem) (a : CartItem) :
    sumQuantity (l ++ [a]) = sumQuantity l + a.quantity := by
  induction l with
  | nil => simp [sumQuantity]
  | cons b rest ih =>
    rw [List.cons_append, sumQuantity, ih, sumQuantity]
    omega

theorem sumQuantityPrice_append (l : List CartItem) (a : CartItem) :
    sumQuantityPrice (l ++ [a]) = sumQuantityPrice l + a.quantity * a.price := by
  induction l with
  | nil => simp [sumQuantityPrice]
  | cons b rest ih =>
    rw [List.cons_append, sumQuantityPrice, ih, sumQuantityPrice]
    ring

theorem totalItems_append (l : List CartItem) (a : CartItem) :
    totalItems (l ++ [a]) = addInt (totalItems l) a.quantity := by
  unfold totalItems
  rw [List.foldl_append]
  rfl

theorem totalCost_append (l : List CartItem) (a : CartItem) :
    totalCost (l ++ [a]) = addNum (totalCost l) (mulNum a.quantity a.price) := by
  unfold totalCost
  rw [List.foldl_append]
  rfl

theorem take_append_singleton (l : List CartItem) (a : CartItem) (k : Nat)
    (hk : k ≤ l.length) : (l ++ [a]).take k = l.take k :=
  List.take_append_of_le_length hk

theorem totalItems_exact (S : List CartItem)
    (hq : ∀ k, k ≤ S.length → IsDouble ((sumQuantity (S.take k) : Int) : ℚ)) :
    totalItems S = sumQuantity S := by
  induction S using List.reverseRecOn with
  | nil => rfl
  | append_singleton l a ih =>
    have hl : ∀ k, k ≤ l.length → IsDouble ((sumQuantity (l.take k) : Int) : ℚ) := by
      intro k hk
      have := hq k (by rw [List.length_append]; omega)
      rwa [take_append_singleton l a k hk] at this
    have hall := hq (l ++ [a]).length (le_refl _)
    rw [List.take_length, sumQuantity_append] at hall
    rw [totalItems_append, ih hl, sumQuantity_append, addInt_of_isDouble _ _ hall]

theorem totalCost_exact (S : List CartItem)
    (hp : ∀ item ∈ S, IsDouble (item.quantity * item.price))
    (hs : ∀ k, k ≤ S.length → IsDouble (sumQuantityPrice (S.take k))) :
    totalCost S = sumQuantityPrice S := by
  induction S using List.reverseRecOn with
  | nil => rfl
  | append_singleton l a ih =>
    have hpl : ∀ item ∈ l, IsDouble (item.quantity * item.price) := fun item hm =>
      hp item (List.mem_append_left _ hm)
    have hl : ∀ k, k ≤ l.length → IsDouble (sumQuantityPrice (l.take k)) := by
      intro k hk
      have := hs k (by rw [List.length_append]; omega)
      rwa [take_append_singleton l a k hk] at this
    have ha := hp a (by simp)
    have hall := hs (l ++ [a]).length (le_refl _)
    rw [List.take_length, sumQuantityPrice_append] at hall
    rw [totalCost_append, ih hpl hl, sumQuantityPrice_append, mulNum_exact _ _ ha,
      addNum_exact _ _ hall]

theorem sumQuantity_eq_sum (cart : List CartItem) :
    sumQuantity cart = (cart.map (fun item => item.quantity)).sum := by
  induction cart with
  | nil => rfl
  | cons a rest ih => simp [sumQuantity, ih]

theorem sumQuantityPrice_eq_sum (cart : List CartItem) :
    sumQuantityPrice cart = (cart.map (fun item => (item.quantity : ℚ) * item.price)).sum := by
  induction cart with
  | nil => rfl
  | cons a rest ih => simp [sumQuantityPrice, ih]

theorem updateQuantity_eq_map_filter (cart : List CartItem) (id delta : Int) :
    updateQuantity cart id delta =
      (cart.filter (fun item =>
          if item.id = id then decide (0 < item.quantity + delta)
          else decide (0 < item.quantity))).map
        (fun item =>
          if item.id = id then { item with quantity := addInt item.quantity delta } else item) := by
  unfold updateQuantity
  rw [List.filter_map]
  congr 1
  apply List.filter_congr
  intro item _
  by_cases h : item.id = id <;> simp [h, addInt_pos_iff]

theorem event_singleton (cart : List CartItem) (op : CartOp) : event cart [op] = step cart op := by
  cases op <;> rfl

theorem foldl_event_singletons (ops : List CartOp) (cart : List CartItem) :
    (ops.map (fun op => [op])).foldl event cart = ops.foldl step cart := by
  induction ops generalizing cart with
  | nil => rfl
  | cons op rest ih =>
    rw [List.map_cons, List.foldl_cons, List.foldl_cons, event_singleton, ih]

/-- The sequence of calls of `run` is the session of one call per render. -/
theorem run_eq_session (ops : List CartOp) : run ops = session (ops.map (fun op => [op])) :=
  (foldl_event_singletons ops []).symm

theorem applyCall_invariant (P : List CartItem → Prop)
    (hstep : ∀ cart op, P cart → P (step cart op)) (rendered pending : List CartItem)
    (hr : P rendered) (hp : P pending) (op : CartOp) : P (applyCall rendered pending op) := by
  cases op with
  | add plant => exact hstep rendered (.add plant) hr
  | update id delta => exact hstep pending (.update id delta) hp
  | remove id => exact hstep pending (.remove id) hp

theorem event_invariant (P : List CartItem → Prop)
    (hstep : ∀ cart op, P cart → P (step cart op)) (rendered : List CartItem) (hr : P rendered)
    (calls : List CartOp) : P (event rendered calls) := by
  unfold event
  have hgen : ∀ (cs : List CartOp) (pending : List CartItem), P pending →
      P (cs.foldl (applyCall rendered) pending) := by
    intro cs
    induction cs with
    | nil => intro pending h; exact h
    | cons c rest ih =>
      intro pending h
      exact ih _ (applyCall_invariant P hstep rendered pending hr h c)
  exact hgen calls rendered hr

theorem session_invariant (P : List CartItem → Prop) (hnil : P [])
    (hstep : ∀ cart op, P cart → P (step cart op)) (events : List (List CartOp)) :
    P (session events) := by
  unfold session
  have hgen : ∀ (es : List (List CartOp)) (cart : List CartItem), P cart →
      P (es.foldl event cart) := by
    intro es
    induction es with
    | nil => intro cart h; exact h
    | cons e rest ih => intro cart h; exact ih _ (event_invariant P hstep cart h e)
  exact hgen events [] hnil

/-- The ids stay distinct also when several calls are made from one render. -/
theorem session_noDupIds (events : List (List CartOp)) : NoDupIds (session events) :=
  session_invariant NoDupIds List.nodup_nil noDupIds_step events

/-- The quantities stay at least one also when several calls are made from one render. -/
theorem session_allPositive (events : List (List CartOp)) : AllPositive (session events) :=
  session_invariant AllPositive (fun _ h => absurd h (List.not_mem_nil _)) allPositive_step events

theorem addInt_one_one : addInt 1 1 = 2 := by decide

theorem roundInt_two_pow_53 : roundInt (2 ^ 53) = 2 ^ 53 := by decide

theorem addInt_two_pow_53_one : addInt (2 ^ 53) 1 = 2 ^ 53 := by
  unfold addInt
  exact roundInt_two_pow_53_add_one

theorem addInt_one_two_pow_53_sub_one : addInt 1 (2 ^ 53 - 1) = 2 ^ 53 := by decide

theorem run_snoc (ops : List CartOp) (op : CartOp) : run (ops ++ [op]) = step (run ops) op := by
  unfold run
  rw [List.foldl_append]
  rfl

theorem step_update (cart : List CartItem) (id delta : Int) :
    step cart (.update id delta) = updateQuantity cart id delta := rfl

theorem isDouble_of_eq_int (x : ℚ) (n : Int) (hx : x = n) (hn : n.natAbs ≤ 2 ^ 53) :
    IsDouble x := by
  rw [hx]
  exact isDouble_intCast n hn

theorem roundDouble_two_pow_53_add_one : roundDouble (2 ^ 53 + 1) = 2 ^ 53 := by
  have h := roundPos_eval (2 ^ 53 + 1) 53 (2 ^ 52) (by norm_num) (by norm_num) (by norm_num)
    (by norm_num) (by norm_num) (by norm_num)
  unfold roundDouble
  rw [if_neg (by norm_num), h]
  norm_num

theorem totalItems_pair (a b : CartItem) (qa qb : Int) (ha : a.quantity = qa)
    (hb : b.quantity = qb) : totalItems [a, b] = addInt (addInt 0 qa) qb := by
  subst ha hb
  rfl

theorem totalItems_single (a : CartItem) (qa : Int) (ha : a.quantity = qa) :
    totalItems [a] = addInt 0 qa := by
  subst ha
  rfl

theorem totalCost_single (a : CartItem) (q : Int) (p : ℚ) (ha : a.quantity = q)
    (hp : a.price = p) : totalCost [a] = addNum 0 (mulNum q p) := by
  subst ha hp
  rfl

theorem totalCost_pair (a b : CartItem) (qa qb : Int) (pa pb : ℚ) (ha : a.quantity = qa)
    (hpa : a.price = pa) (hb : b.quantity = qb) (hpb : b.price = pb) :
    totalCost [a, b] = addNum (addNum 0 (mulNum qa pa)) (mulNum qb pb) := by
  subst ha hpa hb hpb
  rfl

theorem addNum_zero_left (r : ℚ) (hr : IsDouble r) : addNum 0 r = r := by
  have := addNum_exact 0 r (by rwa [zero_add])
  rwa [zero_add] at this

/-! ## Properties of the cart -/

/-- C1: in every state reached from the empty cart by a finite sequence of
addToCart, updateQuantity and removeItem calls, no two lines carry the same
id. -/
theorem run_noDupIds (ops : List CartOp) : NoDupIds (run ops) :=
  foldl_step_invariant NoDupIds noDupIds_step ops [] List.nodup_nil

/-- C2: in every state reached from the empty cart by a finite sequence of
addToCart, updateQuantity and removeItem calls, every line has a quantity of
at least one. -/
theorem run_allPositive (ops : List CartOp) : ∀ item ∈ run ops, 1 ≤ item.quantity :=
  foldl_step_invariant AllPositive allPositive_step ops [] (fun _ h => absurd h (List.not_mem_nil _))

theorem run_allPositive_witness :
    (⟨1, "Snake Plant", 15, "Low Light", "a.png", 4⟩ : CartItem) ∈
        run [.add ⟨1, "Snake Plant", 15, "Low Light", "a.png"⟩, .update 1 3, .update 2 (-7)] ∧
      1 ≤ (⟨1, "Snake Plant", 15, "Low Light", "a.png", 4⟩ : CartItem).quantity :=
  ⟨by decide,
   run_allPositive
    [.add ⟨1, "Snake Plant", 15, "Low Light", "a.png"⟩, .update 1 3, .update 2 (-7)]
    ⟨1, "Snake Plant", 15, "Low Light", "a.png", 4⟩ (by decide)⟩

/-- C3: when no line of the cart carries the product's id, addToCart returns
the cart with exactly one line appended at the end; the old lines are
unchanged and in the same order, and the new last line has the product's id,
name, price and image and quantity 1. -/
theorem addToCart_new_appends (S : List CartItem) (P : Product)
    (h : ∀ item ∈ S, item.id ≠ P.id) :
    addToCart S P =
        S ++ [{ id := P.id, name := P.name, price := P.price, category := P.category,
                img := P.img, quantity := 1 }] ∧
      (addToCart S P).length = S.length + 1 ∧
      (addToCart S P).take S.length = S ∧
      (∀ j, j < S.length → (addToCart S P)[j]? = S[j]?) ∧
      ∃ line, (addToCart S P)[S.length]? = some line ∧ (addToCart S P).getLast? = some line ∧
        line.id = P.id ∧ line.name = P.name ∧ line.price = P.price ∧ line.img = P.img ∧
        line.quantity = 1 := by
  have happ := addToCart_absent S P (not_hasId_of_forall S P.id h)
  rw [happ]
  refine ⟨rfl, by simp, by simp, ?_, spreadPlant P 1, by simp, by simp, rfl, rfl, rfl, rfl, rfl⟩
  intro j hj
  rw [List.getElem?_append_left hj]

theorem addToCart_new_appends_witness :
    addToCart [⟨1, "Snake Plant", 15, "Low Light", "a.png", 2⟩]
        ⟨3, "Peace Lily", 20, "Flowering", "c.png"⟩ =
      [⟨1, "Snake Plant", 15, "Low Light", "a.png", 2⟩,
       ⟨3, "Peace Lily", 20, "Flowering", "c.png", 1⟩] :=
  (addToCart_new_appends [⟨1, "Snake Plant", 15, "Low Light", "a.png", 2⟩]
    ⟨3, "Peace Lily", 20, "Flowering", "c.png"⟩ (by decide)).1

/-- Counterexample to C4 as stated: a cart reached by adding a product and
raising its quantity by 2 ^ 53 - 1 holds one line of quantity 2 ^ 53, and
addToCart of that product leaves the quantity at 2 ^ 53, not at 2 ^ 53 + 1;
and two addToCart calls of a product made from the render of the empty cart
leave one line of quantity 1. -/
theorem addToCart_increment_inexact :
    run [.add ⟨1, "Snake Plant", 15, "Low Light", "a.png"⟩, .update 1 (2 ^ 53 - 1)] =
        [⟨1, "Snake Plant", 15, "Low Light", "a.png", 2 ^ 53⟩] ∧
      NoDupIds [⟨1, "Snake Plant", 15, "Low Light", "a.png", 2 ^ 53⟩] ∧
      addToCart [⟨1, "Snake Plant", 15, "Low Light", "a.png", 2 ^ 53⟩]
          ⟨1, "Snake Plant", 15, "Low Light", "a.png"⟩ =
        [⟨1, "Snake Plant", 15, "Low Light", "a.png", 2 ^ 53⟩] ∧
      (addToCart [⟨1, "Snake Plant", 15, "Low Light", "a.png", 2 ^ 53⟩]
          ⟨1, "Snake Plant", 15, "Low Light", "a.png"⟩)[0]? ≠
        some ⟨1, "Snake Plant", 15, "Low Light", "a.png", 2 ^ 53 + 1⟩ ∧
      event [] [.add ⟨1, "Snake Plant", 15, "Low Light", "a.png"⟩,
          .add ⟨1, "Snake Plant", 15, "Low Light", "a.png"⟩] =
        [⟨1, "Snake Plant", 15, "Low Light", "a.png", 1⟩] := by
  have hadd : addToCart [⟨1, "Snake Plant", 15, "Low Light", "a.png", 2 ^ 53⟩]
      ⟨1, "Snake Plant", 15, "Low Light", "a.png"⟩ =
      [⟨1, "Snake Plant", 15, "Low Light", "a.png", 2 ^ 53⟩] := by
    rw [addToCart_present _ _ ⟨_, List.mem_singleton_self _, rfl⟩]
    simp only [List.map_cons, List.map_nil, if_true, addInt_two_pow_53_one]
  refine ⟨?_, by decide, hadd, ?_, ?_⟩
  · have h1 : run [.add ⟨1, "Snake Plant", 15, "Low Light", "a.png"⟩, .update 1 (2 ^ 53 - 1)] =
        updateQuantity [⟨1, "Snake Plant", 15, "Low Light", "a.png", 1⟩] 1 (2 ^ 53 - 1) := rfl
    rw [h1]
    unfold updateQuantity
    simp only [List.map_cons, List.map_nil, if_true, addInt_one_two_pow_53_sub_one]
    decide
  · rw [hadd]
    decide
  · rfl

/-- C4 (amended): in a cart without duplicate ids whose line at position i
carries the product's id, addToCart keeps the length, puts at position i the
same line (name, price and image are the line's, not the product's) with the
quantity the source's sum of the quantity and one, which is the quantity plus
one whenever that is a double, so whenever it is at most 2 ^ 53 in
magnitude, and leaves every other position unchanged; and from a cart T without the product's id, one
addToCart yields exactly one line with that id, of quantity 1, and a second
addToCart made from the render of that state exactly one line with that id,
of quantity 2. -/
theorem addToCart_existing_increments (S T : List CartItem) (P : Product) (i : Nat)
    (hi : i < S.length) (hnd : NoDupIds S) (hid : (S.get ⟨i, hi⟩).id = P.id)
    (hT : ∀ item ∈ T, item.id ≠ P.id) :
    (addToCart S P).length = S.length ∧
      (addToCart S P)[i]? =
        some { id := (S.get ⟨i, hi⟩).id, name := (S.get ⟨i, hi⟩).name,
               price := (S.get ⟨i, hi⟩).price, category := (S.get ⟨i, hi⟩).category,
               img := (S.get ⟨i, hi⟩).img,
               quantity := addInt (S.get ⟨i, hi⟩).quantity 1 } ∧
      (IsDouble (((S.get ⟨i, hi⟩).quantity + 1 : Int) : ℚ) →
        (addToCart S P)[i]? =
          some { id := (S.get ⟨i, hi⟩).id, name := (S.get ⟨i, hi⟩).name,
                 price := (S.get ⟨i, hi⟩).price, category := (S.get ⟨i, hi⟩).category,
                 img := (S.get ⟨i, hi⟩).img, quantity := (S.get ⟨i, hi⟩).quantity + 1 }) ∧
      (((S.get ⟨i, hi⟩).quantity + 1).natAbs ≤ 2 ^ 53 →
        (addToCart S P)[i]? =
          some { id := (S.get ⟨i, hi⟩).id, name := (S.get ⟨i, hi⟩).name,
                 price := (S.get ⟨i, hi⟩).price, category := (S.get ⟨i, hi⟩).category,
                 img := (S.get ⟨i, hi⟩).img, quantity := (S.get ⟨i, hi⟩).quantity + 1 }) ∧
      (∀ j, j ≠ i → (addToCart S P)[j]? = S[j]?) ∧
      (event T [.add P]).filter (fun item => decide (item.id = P.id)) =
        [{ id := P.id, name := P.name, price := P.price, category := P.category,
           img := P.img, quantity := 1 }] ∧
      (event (event T [.add P]) [.add P]).filter (fun item => decide (item.id = P.id)) =
        [{ id := P.id, name := P.name, price := P.price, category := P.category,
           img := P.img, quantity := 2 }] ∧
      (event (event T [.add P]) [.add P]).length = T.length + 1 := by
  have hpres : HasId S P.id := ⟨S.get ⟨i, hi⟩, List.get_mem S i hi, hid⟩
  have hS := addToCart_present S P hpres
  have hTa : event T [.add P] = T ++ [spreadPlant P 1] :=
    addToCart_absent T P (not_hasId_of_forall T P.id hT)
  have hpres2 : HasId (T ++ [spreadPlant P 1]) P.id :=
    ⟨spreadPlant P 1, by simp, rfl⟩
  have hTT : event (T ++ [spreadPlant P 1]) [.add P] = T ++ [spreadPlant P 2] := by
    show addToCart (T ++ [spreadPlant P 1]) P = T ++ [spreadPlant P 2]
    rw [addToCart_present _ P hpres2, List.map_append, map_bump_absent T P.id 1 hT]
    simp [spreadPlant, addInt_one_one]
  have hval : (addToCart S P)[i]? =
      some { id := (S.get ⟨i, hi⟩).id, name := (S.get ⟨i, hi⟩).name,
             price := (S.get ⟨i, hi⟩).price, category := (S.get ⟨i, hi⟩).category,
             img := (S.get ⟨i, hi⟩).img,
             quantity := addInt (S.get ⟨i, hi⟩).quantity 1 } := by
    rw [hS, getElem?_map_bump, List.getElem?_eq_getElem hi]
    have hid2 : S[i].id = P.id := hid
    simp [hid2]
  refine ⟨by rw [hS]; simp, hval, ?_, ?_, ?_, ?_, ?_, ?_⟩
  · intro hq
    rw [hval, addInt_of_isDouble _ _ hq]
  · intro hq
    rw [hval, addInt_exact _ _ hq]
  · intro j hj
    rw [hS, getElem?_map_bump]
    by_cases hjl : j < S.length
    · rw [List.getElem?_eq_getElem hjl]
      have hne : S[j].id ≠ P.id := by
        have := getElem_id_ne S hnd i j hi hjl hj
        rw [hid] at this
        exact this
      simp [hne]
    · rw [List.getElem?_eq_none (by omega)]
      rfl
  · rw [hTa, List.filter_append, filter_id_absent T P.id hT]
    simp [spreadPlant]
  · rw [hTa, hTT, List.filter_append, filter_id_absent T P.id hT]
    simp [spreadPlant]
  · rw [hTa, hTT]
    simp

theorem addToCart_existing_increments_witness :
    (addToCart [⟨1, "Snake Plant", 15, "Low Light", "a.png", 2⟩,
                ⟨3, "Peace Lily", 20, "Flowering", "c.png", 1⟩]
        ⟨3, "Lily", 99, "Other", "z.png"⟩)[1]? =
      some ⟨3, "Peace Lily", 20, "Flowering", "c.png", 2⟩ :=
  (addToCart_existing_increments
    [⟨1, "Snake Plant", 15, "Low Light", "a.png", 2⟩,
     ⟨3, "Peace Lily", 20, "Flowering", "c.png", 1⟩]
    [⟨1, "Snake Plant", 15, "Low Light", "a.png", 2⟩]
    ⟨3, "Lily", 99, "Other", "z.png"⟩ 1 (by decide) (by decide) (by decide)
    (by decide)).2.2.2.1 (by decide)

/-- C5: in a cart without duplicate ids in which every quantity is at least
one, when a line carries the id and its quantity plus delta is at most zero,
updateQuantity returns the cart with that line removed: exactly the lines with
another id, unchanged and in their original order, and no line with the id
remains; delta equal to minus the quantity, or one less, are such deltas. -/
theorem updateQuantity_removes_line (S : List CartItem) (id delta : Int) (line : CartItem)
    (hnd : NoDupIds S) (hpos : AllPositive S) (hmem : line ∈ S) (hid : line.id = id)
    (hq : line.quantity + delta ≤ 0) :
    updateQuantity S id delta = S.filter (fun item => decide (item.id ≠ id)) ∧
      updateQuantity S id delta = S.erase line ∧
      ¬ HasId (updateQuantity S id delta) id ∧
      (∀ item, item ∈ updateQuantity S id delta ↔ item ∈ S ∧ item.id ≠ id) ∧
      (updateQuantity S id delta).length + 1 = S.length ∧
      updateQuantity S id (-line.quantity) = S.erase line ∧
      updateQuantity S id (-line.quantity - 1) = S.erase line := by
  have huniq : ∀ item ∈ S, item.id = id → item = line := fun item hm hi =>
    eq_of_id_eq S hnd item line hm hmem (by rw [hi, hid])
  have hkeep : ∀ item ∈ S, item.id ≠ id → 0 < item.quantity := fun item hm _ => by
    have := hpos item hm
    omega
  have hfil : ∀ d : Int, line.quantity + d ≤ 0 →
      updateQuantity S id d = S.filter (fun item => decide (item.id ≠ id)) := fun d hd =>
    updateQuantity_eq_filter S id d
      (fun item hm hi => by rw [huniq item hm hi]; exact hd) hkeep
  have hS : S.Nodup := List.Nodup.of_map _ hnd
  have herase : S.erase line = S.filter (fun item => decide (item.id ≠ id)) := by
    rw [List.Nodup.erase_eq_filter hS]
    apply List.filter_congr
    intro item hm
    by_cases hi : item.id = id
    · have := huniq item hm hi
      simp [this, hid]
    · have hne : item ≠ line := fun he => hi (by rw [he, hid])
      simp [hi, hne]
  have h1 := hfil delta hq
  refine ⟨h1, by rw [h1, herase], ?_, ?_, ?_, ?_, ?_⟩
  · rintro ⟨item, hm, hi⟩
    rw [h1, List.mem_filter] at hm
    exact absurd hi (by simpa using hm.2)
  · intro item
    rw [h1, List.mem_filter]
    simp
  · rw [h1, ← herase, List.length_erase_of_mem hmem]
    have : 0 < S.length := List.length_pos_of_mem hmem
    omega
  · rw [hfil (-line.quantity) (by omega), herase]
  · rw [hfil (-line.quantity - 1) (by omega), herase]

theorem updateQuantity_removes_line_witness :
    updateQuantity [⟨1, "Snake Plant", 15, "Low Light", "a.png", 2⟩,
                    ⟨3, "Peace Lily", 20, "Flowering", "c.png", 1⟩] 1 (-3) =
      [⟨3, "Peace Lily", 20, "Flowering", "c.png", 1⟩] :=
  (updateQuantity_removes_line
    [⟨1, "Snake Plant", 15, "Low Light", "a.png", 2⟩,
     ⟨3, "Peace Lily", 20, "Flowering", "c.png", 1⟩] 1 (-3)
    ⟨1, "Snake Plant", 15, "Low Light", "a.png", 2⟩
    (by decide) (by decide) (by decide) (by decide) (by decide)).1

/-- Counterexample to C6 as stated: a cart reached by adding a product and
raising its quantity by 2 ^ 53 - 1 holds one line of quantity 2 ^ 53, and
updateQuantity of that id by 1 leaves the quantity at 2 ^ 53, not at
2 ^ 53 + 1, although the sum is positive; and three addToCart calls of
products of ids 1, 2, 3 made from the render of the empty cart leave the
last product alone. -/
theorem updateQuantity_sum_inexact :
    run [.add ⟨1, "Snake Plant", 15, "Low Light", "a.png"⟩, .update 1 (2 ^ 53 - 1),
        .update 1 1] = [⟨1, "Snake Plant", 15, "Low Light", "a.png", 2 ^ 53⟩] ∧
      NoDupIds [⟨1, "Snake Plant", 15, "Low Light", "a.png", 2 ^ 53⟩] ∧
      AllPositive [⟨1, "Snake Plant", 15, "Low Light", "a.png", 2 ^ 53⟩] ∧
      (0 : Int) < 2 ^ 53 + 1 ∧
      updateQuantity [⟨1, "Snake Plant", 15, "Low Light", "a.png", 2 ^ 53⟩] 1 1 =
        [⟨1, "Snake Plant", 15, "Low Light", "a.png", 2 ^ 53⟩] ∧
      (updateQuantity [⟨1, "Snake Plant", 15, "Low Light", "a.png", 2 ^ 53⟩] 1 1)[0]? ≠
        some ⟨1, "Snake Plant", 15, "Low Light", "a.png", 2 ^ 53 + 1⟩ ∧
      event [] [.add ⟨1, "Snake Plant", 15, "Low Light", "a.png"⟩,
          .add ⟨2, "Fiddle Leaf Fig", 35, "Large Plants", "b.png"⟩,
          .add ⟨3, "Peace Lily", 20, "Flowering", "c.png"⟩] =
        [⟨3, "Peace Lily", 20, "Flowering", "c.png", 1⟩] := by
  have hupd : updateQuantity [⟨1, "Snake Plant", 15, "Low Light", "a.png", 2 ^ 53⟩] 1 1 =
      [⟨1, "Snake Plant", 15, "Low Light", "a.png", 2 ^ 53⟩] := by
    unfold updateQuantity
    simp only [List.map_cons, List.map_nil, if_true, addInt_two_pow_53_one]
    decide
  have hfirst : updateQuantity [⟨1, "Snake Plant", 15, "Low Light", "a.png", 1⟩] 1
      (2 ^ 53 - 1) = [⟨1, "Snake Plant", 15, "Low Light", "a.png", 2 ^ 53⟩] := by
    unfold updateQuantity
    simp only [List.map_cons, List.map_nil, if_true, addInt_one_two_pow_53_sub_one]
    decide
  refine ⟨?_, by decide, by decide, by decide, hupd, ?_, rfl⟩
  · have h0 : run [.add ⟨1, "Snake Plant", 15, "Low Light", "a.png"⟩] =
        [⟨1, "Snake Plant", 15, "Low Light", "a.png", 1⟩] := rfl
    have h1 := run_snoc [.add ⟨1, "Snake Plant", 15, "Low Light", "a.png"⟩]
      (.update 1 (2 ^ 53 - 1))
    rw [h0, step_update, hfirst, List.singleton_append] at h1
    have h2 := run_snoc [.add ⟨1, "Snake Plant", 15, "Low Light", "a.png"⟩,
      .update 1 (2 ^ 53 - 1)] (.update 1 1)
    rw [h1, step_update, hupd] at h2
    simp only [List.cons_append, List.nil_append] at h2
    exact h2
  · rw [hupd]
    decide

/-- C6 (amended): in a cart without duplicate ids in which every quantity is
at least one, when the line at position i carries the id and its quantity
plus delta is positive, updateQuantity keeps the length and the sequence of
ids, puts at position i the same line with the quantity the source's sum of
the quantity and delta, which is the quantity plus delta whenever that is a
double, so whenever it is at most 2 ^ 53, and leaves every other position
unchanged; and after
products A, B, C of distinct ids are added to the empty cart, each from the
render of the state before it, updateQuantity (B, 1) leaves the ids in the
order A, B, C. -/
theorem updateQuantity_keeps_order (S : List CartItem) (id delta : Int) (i : Nat)
    (A B C : Product)
    (hi : i < S.length) (hnd : NoDupIds S) (hpos : AllPositive S)
    (hid : (S.get ⟨i, hi⟩).id = id) (hq : 0 < (S.get ⟨i, hi⟩).quantity + delta)
    (hAB : A.id ≠ B.id) (hAC : A.id ≠ C.id) (hBC : B.id ≠ C.id) :
    (updateQuantity S id delta).length = S.length ∧
      ids (updateQuantity S id delta) = ids S ∧
      (updateQuantity S id delta)[i]? =
        some { id := (S.get ⟨i, hi⟩).id, name := (S.get ⟨i, hi⟩).name,
               price := (S.get ⟨i, hi⟩).price, category := (S.get ⟨i, hi⟩).category,
               img := (S.get ⟨i, hi⟩).img,
               quantity := addInt (S.get ⟨i, hi⟩).quantity delta } ∧
      (IsDouble (((S.get ⟨i, hi⟩).quantity + delta : Int) : ℚ) →
        (updateQuantity S id delta)[i]? =
          some { id := (S.get ⟨i, hi⟩).id, name := (S.get ⟨i, hi⟩).name,
                 price := (S.get ⟨i, hi⟩).price, category := (S.get ⟨i, hi⟩).category,
                 img := (S.get ⟨i, hi⟩).img,
                 quantity := (S.get ⟨i, hi⟩).quantity + delta }) ∧
      ((S.get ⟨i, hi⟩).quantity + delta ≤ 2 ^ 53 →
        (updateQuantity S id delta)[i]? =
          some { id := (S.get ⟨i, hi⟩).id, name := (S.get ⟨i, hi⟩).name,
                 price := (S.get ⟨i, hi⟩).price, category := (S.get ⟨i, hi⟩).category,
                 img := (S.get ⟨i, hi⟩).img,
                 quantity := (S.get ⟨i, hi⟩).quantity + delta }) ∧
      (∀ j, j ≠ i → (updateQuantity S id delta)[j]? = S[j]?) ∧
      ids (session [[.add A], [.add B], [.add C]]) = [A.id, B.id, C.id] ∧
      ids (updateQuantity (session [[.add A], [.add B], [.add C]]) B.id 1) =
        [A.id, B.id, C.id] ∧
      event (session [[.add A], [.add B], [.add C]]) [.update B.id 1] =
        [spreadPlant A 1, spreadPlant B 2, spreadPlant C 1] := by
  have hmem : S.get ⟨i, hi⟩ ∈ S := List.get_mem S i hi
  have hhit : ∀ item ∈ S, item.id = id → 0 < item.quantity + delta := fun item hm hitem => by
    have := eq_of_id_eq S hnd item (S.get ⟨i, hi⟩) hm hmem (by rw [hitem, hid])
    rw [this]
    exact hq
  have hkeep : ∀ item ∈ S, item.id ≠ id → 0 < item.quantity := fun item hm _ => by
    have := hpos item hm
    omega
  have hmap := updateQuantity_eq_map S id delta hhit hkeep
  have hrun : session [[.add A], [.add B], [.add C]] =
      [spreadPlant A 1, spreadPlant B 1, spreadPlant C 1] := by
    have hBA : B.id ≠ A.id := fun h => hAB h.symm
    have hCA : C.id ≠ A.id := fun h => hAC h.symm
    have hCB : C.id ≠ B.id := fun h => hBC h.symm
    simp [session, event, applyCall, addToCart, spreadPlant, List.find?, hAB, hAC, hBC, hBA,
      hCA, hCB]
  have hupd : updateQuantity (session [[.add A], [.add B], [.add C]]) B.id 1 =
      [spreadPlant A 1, spreadPlant B 2, spreadPlant C 1] := by
    have hCB : C.id ≠ B.id := fun h => hBC h.symm
    rw [hrun]
    simp [updateQuantity, spreadPlant, hAB, hCB, addInt_one_one]
  have hval : (updateQuantity S id delta)[i]? =
      some { id := (S.get ⟨i, hi⟩).id, name := (S.get ⟨i, hi⟩).name,
             price := (S.get ⟨i, hi⟩).price, category := (S.get ⟨i, hi⟩).category,
             img := (S.get ⟨i, hi⟩).img,
             quantity := addInt (S.get ⟨i, hi⟩).quantity delta } := by
    rw [hmap, getElem?_map_bump, List.getElem?_eq_getElem hi]
    have hid2 : S[i].id = id := hid
    simp [hid2]
  refine ⟨by rw [hmap]; simp, by rw [hmap, ids_map_bump], hval, ?_, ?_, ?_, ?_, ?_, hupd⟩
  · intro hd
    rw [hval, addInt_of_isDouble _ _ hd]
  · intro hle
    rw [hval, addInt_exact _ _ (by omega)]
  · intro j hj
    rw [hmap, getElem?_map_bump]
    by_cases hjl : j < S.length
    · rw [List.getElem?_eq_getElem hjl]
      have hne : S[j].id ≠ id := by
        have := getElem_id_ne S hnd i j hi hjl hj
        rw [hid] at this
        exact this
      simp [hne]
    · rw [List.getElem?_eq_none (by omega)]
      rfl
  · rw [hrun]; rfl
  · rw [hupd]; rfl

theorem updateQuantity_keeps_order_witness :
    ids (updateQuantity [⟨1, "Snake Plant", 15, "Low Light", "a.png", 2⟩,
                         ⟨3, "Peace Lily", 20, "Flowering", "c.png", 4⟩] 3 (-3)) = [1, 3] ∧
      (updateQuantity [⟨1, "Snake Plant", 15, "Low Light", "a.png", 2⟩,
                       ⟨3, "Peace Lily", 20, "Flowering", "c.png", 4⟩] 3 (-3))[1]? =
        some ⟨3, "Peace Lily", 20, "Flowering", "c.png", 1⟩ :=
  have h := updateQuantity_keeps_order
    [⟨1, "Snake Plant", 15, "Low Light", "a.png", 2⟩,
     ⟨3, "Peace Lily", 20, "Flowering", "c.png", 4⟩] 3 (-3) 1
    ⟨1, "Snake Plant", 15, "Low Light", "a.png"⟩
    ⟨2, "Fiddle Leaf Fig", 35, "Large Plants", "b.png"⟩
    ⟨3, "Peace Lily", 20, "Flowering", "c.png"⟩
    (by decide) (by decide) (by decide) (by decide) (by decide)
    (by decide) (by decide) (by decide)
  ⟨h.2.1, h.2.2.2.2.1 (by decide)⟩

/-- C7: in a cart without duplicate ids in which every quantity is at least
one, updateQuantity with an id that no line carries returns the cart
unchanged, for every integer delta. -/
theorem updateQuantity_absent_noop (S : List CartItem) (id n : Int)
    (hnd : NoDupIds S) (hpos : AllPositive S) (habs : ∀ item ∈ S, item.id ≠ id) :
    updateQuantity S id n = S ∧ NoDupIds (updateQuantity S id n) ∧
      AllPositive (updateQuantity S id n) := by
  have hkeep : ∀ item ∈ S, item.id ≠ id → 0 < item.quantity := fun item hm _ => by
    have := hpos item hm
    omega
  have h : updateQuantity S id n = S := by
    rw [updateQuantity_eq_map S id n (fun item hm hi => absurd hi (habs item hm)) hkeep,
      map_bump_absent S id n habs]
  rw [h]
  exact ⟨rfl, hnd, hpos⟩

theorem updateQuantity_absent_noop_witness :
    updateQuantity [⟨1, "Snake Plant", 15, "Low Light", "a.png", 2⟩,
                    ⟨3, "Peace Lily", 20, "Flowering", "c.png", 1⟩] 2 (-5) =
      [⟨1, "Snake Plant", 15, "Low Light", "a.png", 2⟩,
       ⟨3, "Peace Lily", 20, "Flowering", "c.png", 1⟩] :=
  (updateQuantity_absent_noop
    [⟨1, "Snake Plant", 15, "Low Light", "a.png", 2⟩,
     ⟨3, "Peace Lily", 20, "Flowering", "c.png", 1⟩] 2 (-5)
    (by decide) (by decide) (by decide)).1

/-- C8: removeItem returns exactly the lines whose id differs from the given
id, in their original order and unchanged, whatever the quantity of the line
removed; the result has no line with that id, and equals the cart when no
line carries the id. -/
theorem removeItem_drops_id (S : List CartItem) (id : Int) :
    removeItem S id = linesOtherThan S id ∧
      (removeItem S id).Sublist S ∧
      (∀ item, item ∈ removeItem S id ↔ item ∈ S ∧ item.id ≠ id) ∧
      (∀ item, item.id ≠ id → (removeItem S id).count item = S.count item) ∧
      ¬ HasId (removeItem S id) id ∧
      ((∀ item ∈ S, item.id ≠ id) → removeItem S id = S) ∧
      (∀ n c i q p, removeItem (S ++ [⟨id, n, p, c, i, q⟩]) id = removeItem S id) := by
  refine ⟨removeItem_eq_linesOtherThan S id, List.filter_sublist S, ?_, ?_, ?_,
    removeItem_absent S id, ?_⟩
  · intro item
    unfold removeItem
    rw [List.mem_filter]
    simp
  · intro item hne
    unfold removeItem
    rw [List.count_filter]
    simpa using hne
  · rintro ⟨item, hm, hi⟩
    unfold removeItem at hm
    rw [List.mem_filter] at hm
    exact absurd hi (by simpa using hm.2)
  · intro n c i q p
    unfold removeItem
    rw [List.filter_append]
    simp

/-- Counterexample to C9 as stated: on the cart of a line of quantity 2 ^ 53
and a line of quantity 1, whose ids differ and whose quantities are at least
one, totalItems is 2 ^ 53 and the sum of the quantities 2 ^ 53 + 1; on the
cart of one line of quantity 3 and price 3002399751580331, totalCost is
2 ^ 53 and the product 2 ^ 53 + 1; on the cart of one line of quantity 3 and
of price the double nearest to one tenth, totalCost is the double
5404319552844596 / 2 ^ 54 and the product is not; and the three addToCart
calls of the scenario, made from the render of the empty cart, leave the
line of id 1 alone with quantity 1. -/
theorem totals_inexact :
    NoDupIds [⟨1, "Snake Plant", 15, "Low Light", "a.png", 2 ^ 53⟩,
        ⟨2, "Fiddle Leaf Fig", 35, "Large Plants", "b.png", 1⟩] ∧
      AllPositive [⟨1, "Snake Plant", 15, "Low Light", "a.png", 2 ^ 53⟩,
        ⟨2, "Fiddle Leaf Fig", 35, "Large Plants", "b.png", 1⟩] ∧
      totalItems [⟨1, "Snake Plant", 15, "Low Light", "a.png", 2 ^ 53⟩,
        ⟨2, "Fiddle Leaf Fig", 35, "Large Plants", "b.png", 1⟩] = 2 ^ 53 ∧
      sumQuantity [⟨1, "Snake Plant", 15, "Low Light", "a.png", 2 ^ 53⟩,
        ⟨2, "Fiddle Leaf Fig", 35, "Large Plants", "b.png", 1⟩] = 2 ^ 53 + 1 ∧
      totalCost [⟨1, "Snake Plant", 3002399751580331, "Low Light", "a.png", 3⟩] = 2 ^ 53 ∧
      sumQuantityPrice [⟨1, "Snake Plant", 3002399751580331, "Low Light", "a.png", 3⟩] =
        2 ^ 53 + 1 ∧
      IsDouble (3602879701896397 / 2 ^ 55) ∧
      totalCost [⟨1, "Snake Plant", 3602879701896397 / 2 ^ 55, "Low Light", "a.png", 3⟩] =
        5404319552844596 / 2 ^ 54 ∧
      sumQuantityPrice
          [⟨1, "Snake Plant", 3602879701896397 / 2 ^ 55, "Low Light", "a.png", 3⟩] =
        10808639105689191 / 2 ^ 55 ∧
      totalCost [⟨1, "Snake Plant", 3602879701896397 / 2 ^ 55, "Low Light", "a.png", 3⟩] ≠
        sumQuantityPrice
          [⟨1, "Snake Plant", 3602879701896397 / 2 ^ 55, "Low Light", "a.png", 3⟩] ∧
      event [] [.add ⟨1, "Snake Plant", 15, "Low Light", "a.png"⟩,
          .add ⟨2, "Peace Lily", 20, "Flowering", "c.png"⟩,
          .add ⟨1, "Snake Plant", 15, "Low Light", "a.png"⟩] =
        [⟨1, "Snake Plant", 15, "Low Light", "a.png", 1⟩] := by
  have hz := addNum_zero_left
  have hitems : totalItems [⟨1, "Snake Plant", 15, "Low Light", "a.png", 2 ^ 53⟩,
      ⟨2, "Fiddle Leaf Fig", 35, "Large Plants", "b.png", 1⟩] = 2 ^ 53 := by
    rw [totalItems_pair _ _ (2 ^ 53) 1 rfl rfl,
      show addInt 0 (2 ^ 53) = 2 ^ 53 from by decide, addInt_two_pow_53_one]
  have hbig : totalCost [⟨1, "Snake Plant", 3002399751580331, "Low Light", "a.png", 3⟩] =
      2 ^ 53 := by
    rw [totalCost_single _ 3 3002399751580331 rfl rfl]
    have hm : mulNum ((3 : Int) : ℚ) 3002399751580331 = 2 ^ 53 := by
      unfold mulNum
      rw [show ((3 : Int) : ℚ) * 3002399751580331 = 2 ^ 53 + 1 by norm_num]
      exact roundDouble_two_pow_53_add_one
    rw [hm]
    exact hz _ ⟨1, 53, by decide, by decide, by decide, by norm_num⟩
  have htenth : totalCost
      [⟨1, "Snake Plant", 3602879701896397 / 2 ^ 55, "Low Light", "a.png", 3⟩] =
      5404319552844596 / 2 ^ 54 := by
    rw [totalCost_single _ 3 (3602879701896397 / 2 ^ 55) rfl rfl]
    have hm : mulNum ((3 : Int) : ℚ) (3602879701896397 / 2 ^ 55) =
        5404319552844596 / 2 ^ 54 := by
      unfold mulNum
      rw [show ((3 : Int) : ℚ) = 3 by norm_num]
      exact roundDouble_three_tenths
    rw [hm]
    exact hz _ ⟨5404319552844596, -54, by decide, by decide, by decide, by norm_num⟩
  have hsum : sumQuantityPrice
      [⟨1, "Snake Plant", 3602879701896397 / 2 ^ 55, "Low Light", "a.png", 3⟩] =
      10808639105689191 / 2 ^ 55 := by
    simp only [sumQuantityPrice]
    norm_num
  refine ⟨by decide, by decide, hitems, by decide, hbig, ?_,
    ⟨3602879701896397, -55, by decide, by decide, by decide, by norm_num⟩, htenth, hsum, ?_,
    rfl⟩
  · simp only [sumQuantityPrice]
    norm_num
  · rw [htenth, hsum]
    norm_num

/-- C9 (amended): on a cart in which the sum of the quantities of every
leading part of the sequence is a double (as it is when at most 2 ^ 53 in
magnitude), totalItems is the sum of the quantities, and on a cart in which
every product of quantity and price, and the sum of these products over
every leading part of the sequence, is a double, totalCost is the sum of
quantity times price; both are 0 on the empty cart; on a cart of a line of price 15 and quantity 2 and
a line of price 20 and quantity 1 they are 3 and 50; and adding a product of
id 1 and price 15, a product of id 2 and price 20 and again a product of
id 1 to the empty cart, each from the render of the state before it, gives
the line of id 1 with quantity 2 followed by the line of id 2 with
quantity 1, of totals 3 and 50, and removing id 2 then leaves the line of
id 1 alone, of totals 2 and 30. -/
theorem totals_are_sums (S : List CartItem) (ka kb : Int) (p3 : ℚ)
    (n1 c1 i1 n2 c2 i2 n3 c3 i3 : String)
    (hq : ∀ k, k ≤ S.length → IsDouble ((sumQuantity (S.take k) : Int) : ℚ))
    (hp : ∀ item ∈ S, IsDouble (item.quantity * item.price))
    (hs : ∀ k, k ≤ S.length → IsDouble (sumQuantityPrice (S.take k))) :
    totalItems S = sumQuantity S ∧
      totalCost S = sumQuantityPrice S ∧
      totalItems S = (S.map (fun item => item.quantity)).sum ∧
      totalCost S = (S.map (fun item => (item.quantity : ℚ) * item.price)).sum ∧
      totalItems [] = 0 ∧ totalCost [] = 0 ∧
      totalItems [⟨ka, n1, 15, c1, i1, 2⟩, ⟨kb, n2, 20, c2, i2, 1⟩] = 3 ∧
      totalCost [⟨ka, n1, 15, c1, i1, 2⟩, ⟨kb, n2, 20, c2, i2, 1⟩] = 50 ∧
      session [[.add ⟨1, n1, 15, c1, i1⟩], [.add ⟨2, n2, 20, c2, i2⟩],
        [.add ⟨1, n3, p3, c3, i3⟩]] =
        [⟨1, n1, 15, c1, i1, 2⟩, ⟨2, n2, 20, c2, i2, 1⟩] ∧
      totalItems (session [[.add ⟨1, n1, 15, c1, i1⟩], [.add ⟨2, n2, 20, c2, i2⟩],
        [.add ⟨1, n3, p3, c3, i3⟩]]) = 3 ∧
      totalCost (session [[.add ⟨1, n1, 15, c1, i1⟩], [.add ⟨2, n2, 20, c2, i2⟩],
        [.add ⟨1, n3, p3, c3, i3⟩]]) = 50 ∧
      session [[.add ⟨1, n1, 15, c1, i1⟩], [.add ⟨2, n2, 20, c2, i2⟩],
        [.add ⟨1, n3, p3, c3, i3⟩], [.remove 2]] = [⟨1, n1, 15, c1, i1, 2⟩] ∧
      totalItems (session [[.add ⟨1, n1, 15, c1, i1⟩], [.add ⟨2, n2, 20, c2, i2⟩],
        [.add ⟨1, n3, p3, c3, i3⟩], [.remove 2]]) = 2 ∧
      totalCost (session [[.add ⟨1, n1, 15, c1, i1⟩], [.add ⟨2, n2, 20, c2, i2⟩],
        [.add ⟨1, n3, p3, c3, i3⟩], [.remove 2]]) = 30 := by
  have hI := totalItems_exact S hq
  have hC := totalCost_exact S hp hs
  have hz := addNum_zero_left
  have h30 : mulNum ((2 : Int) : ℚ) 15 = 30 := by
    rw [mulNum_exact _ _ (isDouble_of_eq_int _ 30 (by norm_num) (by decide))]
    norm_num
  have h20 : mulNum ((1 : Int) : ℚ) 20 = 20 := by
    rw [mulNum_exact _ _ (isDouble_of_eq_int _ 20 (by norm_num) (by decide))]
    norm_num
  have h030 : addNum 0 30 = 30 := hz 30 (isDouble_of_eq_int _ 30 (by norm_num) (by decide))
  have h50 : addNum 30 20 = 50 := by
    rw [addNum_exact _ _ (isDouble_of_eq_int _ 50 (by norm_num) (by decide))]
    norm_num
  have hitems2 : ∀ a b : CartItem, a.quantity = 2 → b.quantity = 1 → totalItems [a, b] = 3 := by
    intro a b ha hb
    rw [totalItems_pair a b 2 1 ha hb]
    decide
  have hcost2 : ∀ a b : CartItem, a.quantity = 2 → a.price = 15 → b.quantity = 1 →
      b.price = 20 → totalCost [a, b] = 50 := by
    intro a b ha hpa hb hpb
    rw [totalCost_pair a b 2 1 15 20 ha hpa hb hpb, h30, h20, h030, h50]
  have hitems1 : ∀ a : CartItem, a.quantity = 2 → totalItems [a] = 2 := by
    intro a ha
    rw [totalItems_single a 2 ha]
    decide
  have hcost1 : ∀ a : CartItem, a.quantity = 2 → a.price = 15 → totalCost [a] = 30 := by
    intro a ha hpa
    rw [totalCost_single a 2 15 ha hpa, h30, h030]
  have hrun : session [[.add ⟨1, n1, 15, c1, i1⟩], [.add ⟨2, n2, 20, c2, i2⟩],
      [.add ⟨1, n3, p3, c3, i3⟩]] = [⟨1, n1, 15, c1, i1, 2⟩, ⟨2, n2, 20, c2, i2, 1⟩] := by
    simp [session, event, applyCall, addToCart, spreadPlant, List.find?, addInt_one_one]
  have hrun2 : session [[.add ⟨1, n1, 15, c1, i1⟩], [.add ⟨2, n2, 20, c2, i2⟩],
      [.add ⟨1, n3, p3, c3, i3⟩], [.remove 2]] = [⟨1, n1, 15, c1, i1, 2⟩] := by
    simp [session, event, applyCall, addToCart, removeItem, spreadPlant, List.find?,
      addInt_one_one]
  refine ⟨hI, hC, by rw [hI, sumQuantity_eq_sum], by rw [hC, sumQuantityPrice_eq_sum],
    rfl, rfl, hitems2 _ _ rfl rfl, hcost2 _ _ rfl rfl rfl rfl, hrun, ?_, ?_, hrun2, ?_, ?_⟩
  · rw [hrun]; exact hitems2 _ _ rfl rfl
  · rw [hrun]; exact hcost2 _ _ rfl rfl rfl rfl
  · rw [hrun2]; exact hitems1 _ rfl
  · rw [hrun2]; exact hcost1 _ rfl rfl

theorem totals_are_sums_witness :
    totalItems [⟨1, "Snake Plant", 15, "Low Light", "a.png", 2⟩,
        ⟨3, "Peace Lily", 20, "Flowering", "c.png", 3⟩] = 5 ∧
      totalCost [⟨1, "Snake Plant", 15, "Low Light", "a.png", 2⟩,
        ⟨3, "Peace Lily", 20, "Flowering", "c.png", 3⟩] = 90 := by
  have h := totals_are_sums
    [⟨1, "Snake Plant", 15, "Low Light", "a.png", 2⟩,
     ⟨3, "Peace Lily", 20, "Flowering", "c.png", 3⟩] 1 2 15 "a" "b" "c" "d" "e" "f" "g" "h" "i"
    (fun k hk => isDouble_intCast _
      ((by decide : ∀ k, k ≤ 2 →
        (sumQuantity (List.take k
          [(⟨1, "Snake Plant", 15, "Low Light", "a.png", 2⟩ : CartItem),
           ⟨3, "Peace Lily", 20, "Flowering", "c.png", 3⟩])).natAbs ≤ 2 ^ 53) k hk))
    (by
      intro item hm
      simp only [List.mem_cons, List.mem_singleton, List.not_mem_nil, or_false] at hm
      rcases hm with rfl | rfl
      · exact isDouble_of_eq_int _ 30 (by norm_num) (by decide)
      · exact isDouble_of_eq_int _ 60 (by norm_num) (by decide))
    (by
      intro k hk
      have hk2 : k = 0 ∨ k = 1 ∨ k = 2 := by
        simp only [List.length_cons, List.length_nil] at hk
        omega
      rcases hk2 with rfl | rfl | rfl
      · exact isDouble_of_eq_int _ 0 (by simp [sumQuantityPrice]) (by decide)
      · exact isDouble_of_eq_int _ 30 (by simp [sumQuantityPrice]; norm_num) (by decide)
      · exact isDouble_of_eq_int _ 90 (by simp [sumQuantityPrice]; norm_num) (by decide))
  refine ⟨?_, ?_⟩
  · rw [h.1]
    decide
  · rw [h.2.1]
    simp only [sumQuantityPrice]
    norm_num

/-- C10: on every sequence of lines, whether or not its quantities are
positive, the result of updateQuantity has no line of quantity zero or less:
the filter runs over every line, so a line of non-positive quantity whose id
differs from the given one is dropped, also when no line carries the given
id. -/
theorem updateQuantity_filters_every_line (S : List CartItem) (id delta : Int) :
    (∀ item ∈ updateQuantity S id delta, 0 < item.quantity) ∧
      (∀ item ∈ S, item.quantity ≤ 0 → item ∉ updateQuantity S id delta) ∧
      (∀ item ∈ S, item.id ≠ id → (item ∈ updateQuantity S id delta ↔ 0 < item.quantity)) ∧
      updateQuantity S id delta =
        (S.filter (fun item =>
            if item.id = id then decide (0 < item.quantity + delta)
            else decide (0 < item.quantity))).map
          (fun item =>
            if item.id = id then { item with quantity := addInt item.quantity delta }
            else item) ∧
      (∀ k n c i p q, k ≠ id → q ≤ 0 →
        updateQuantity (S ++ [⟨k, n, p, c, i, q⟩]) id delta = updateQuantity S id delta) ∧
      updateQuantity [⟨1, "Snake Plant", 15, "Low Light", "a.png", 0⟩,
                      ⟨3, "Peace Lily", 20, "Flowering", "c.png", 1⟩] 2 5 =
        [⟨3, "Peace Lily", 20, "Flowering", "c.png", 1⟩] := by
  have hposAll := updateQuantity_positive S id delta
  refine ⟨hposAll, ?_, ?_, updateQuantity_eq_map_filter S id delta, ?_, by decide⟩
  · intro item _ hq hin
    have := hposAll item hin
    omega
  · intro item hm hne
    constructor
    · exact hposAll item
    · intro hq
      unfold updateQuantity
      rw [List.mem_filter]
      refine ⟨?_, by simpa using hq⟩
      rw [List.mem_map]
      exact ⟨item, hm, by rw [if_neg hne]⟩
  · intro k n c i p q hk hq
    unfold updateQuantity
    rw [List.map_append, List.filter_append]
    have hnq : ¬ 0 < q := by omega
    simp [hk, hnq]

end Plantify
